import Mathlib

/-!
Verification of the text-segmentation and annotation pipeline of the
Chinese2PDF repository (`src/chinese2pdf/text_formatter.py` and
`src/chinese2pdf/config.py`), shallowly embedded in Lean.

Python strings are modelled as `List Char`; `pandas` missing values (NaN)
as `Option`; code that can raise an exception returns `Except Str`.
The external collaborators (the `jieba` word segmenter and the `pypinyin`
romanizer) are taken as function parameters.
-/

/-- Python strings are modelled as lists of characters. -/
abbrev Str := List Char

-- ---------------------------------------------------------------------
-- config.py: character classes
-- ---------------------------------------------------------------------

/-- Source `is_hanzi` (text_formatter.py line 46): `"一" <= ch <= "鿿"`. -/
def is_hanzi (ch : Char) : Bool :=
  0x4e00 ≤ ch.toNat && ch.toNat ≤ 0x9fff

/-- Source `is_hanzi_word` (text_formatter.py line 51): all characters are Hanzi. -/
def is_hanzi_word (token : Str) : Bool :=
  token.all is_hanzi

/-- Character class of `HANZI_RUN` (config.py line 68): `[㐀-鿿]`. -/
def hanziRunChar (ch : Char) : Bool :=
  0x3400 ≤ ch.toNat && ch.toNat ≤ 0x9fff

/-- Character class of `PUNCT_OPEN_PATTERN` (config.py line 59). -/
def isOpenChar (ch : Char) : Bool :=
  ch = '“' || ch = '‘' || ch = '（' || ch = '《' || ch = '〈' || ch = '【' ||
  ch = '『' || ch = '「' || ch = '〖' || ch = '〔' || ch = '［' || ch = '｛'

/-- Character class of `PUNCT_CLOSE_PATTERN` (config.py line 62). -/
def isCloseChar (ch : Char) : Bool :=
  ch = '，' || ch = '。' || ch = '？' || ch = '！' || ch = '：' || ch = '；' ||
  ch = '、' || ch = '”' || ch = '’' || ch = '）' || ch = '》' || ch = '〉' ||
  ch = '】' || ch = '』' || ch = '」' || ch = '〗' || ch = '〕' || ch = '］' ||
  ch = '｝' || ch = '…' || ch = '—'

/-- Full-token match of `PUNCT_OPEN_PATTERN` = `^[...]+$`: one or more
open-punctuation characters and nothing else. -/
def matchOpen (token : Str) : Bool :=
  !token.isEmpty && token.all isOpenChar

/-- Full-token match of `PUNCT_CLOSE_PATTERN` = `^[...]+$`. -/
def matchClose (token : Str) : Bool :=
  !token.isEmpty && token.all isCloseChar

-- ---------------------------------------------------------------------
-- text_formatter.py: cut_mixed
-- ---------------------------------------------------------------------

/-- Inner loop of `cut_mixed` over a non-Hanzi span (text_formatter.py lines
76–93): open/close punctuation characters become single-character tokens,
other characters accumulate in a buffer that is flushed (when non-empty)
before each punctuation token and at the end of the span. -/
def splitSpan (buf : Str) : Str → List Str
  | [] => if buf.isEmpty then [] else [buf]
  | ch :: rest =>
    if isOpenChar ch || isCloseChar ch then
      (if buf.isEmpty then [] else [buf]) ++ [ch] :: splitSpan [] rest
    else
      splitSpan (buf ++ [ch]) rest

/-- Source `cut_mixed` (text_formatter.py lines 56–97), parameterized by the
external word segmenter `seg` (`jieba.lcut` with `HMM=False`).  A maximal
`HANZI_RUN` run is handed to `seg`; a maximal non-Hanzi span goes through
`splitSpan`. -/
def cut_mixed (seg : Str → List Str) (s : Str) : List Str :=
  match s with
  | [] => []
  | c :: cs =>
    if hanziRunChar c then
      seg (c :: cs.takeWhile hanziRunChar) ++ cut_mixed seg (cs.dropWhile hanziRunChar)
    else
      splitSpan [] (c :: cs.takeWhile (fun d => !hanziRunChar d)) ++
        cut_mixed seg (cs.dropWhile (fun d => !hanziRunChar d))
termination_by s.length
decreasing_by
  · exact Nat.lt_succ_of_le (List.dropWhile_sublist _).length_le
  · exact Nat.lt_succ_of_le (List.dropWhile_sublist _).length_le

-- ---------------------------------------------------------------------
-- C1: token concatenation reconstructs the paragraph
-- ---------------------------------------------------------------------

lemma splitSpan_join (l : Str) : ∀ buf : Str, (splitSpan buf l).flatten = buf ++ l := by
  induction l with
  | nil =>
    intro buf
    by_cases h : buf.isEmpty
    · simp [splitSpan, h, List.isEmpty_iff.mp h]
    · simp [splitSpan, h]
  | cons ch rest ih =>
    intro buf
    by_cases hp : isOpenChar ch || isCloseChar ch
    · by_cases h : buf.isEmpty
      · simp [splitSpan, hp, h, ih, List.isEmpty_iff.mp h]
      · simp [splitSpan, hp, h, ih]
    · simp [splitSpan, hp, ih]

/-- C1: for every paragraph string, concatenating the tokens returned by
`cut_mixed` yields exactly the paragraph, assuming the external word
segmenter is concatenation-preserving on each (non-empty, all-Hanzi-run)
input run. -/
theorem C1_cut_mixed_join (seg : Str → List Str)
    (hseg : ∀ r : Str, r ≠ [] → (∀ c ∈ r, hanziRunChar c) → (seg r).flatten = r) :
    ∀ s : Str, (cut_mixed seg s).flatten = s := by
  intro s
  generalize hn : s.length = n
  induction n using Nat.strong_induction_on generalizing s with
  | _ n ih =>
    match s with
    | [] => simp [cut_mixed]
    | c :: cs =>
      by_cases hc : hanziRunChar c
      · rw [cut_mixed]
        rw [if_pos hc]
        simp only [List.flatten_append]
        rw [hseg (c :: cs.takeWhile hanziRunChar) (by simp)
              (by intro x hx
                  rcases List.mem_cons.mp hx with h | h
                  · exact h ▸ hc
                  · exact List.mem_takeWhile_imp h)]
        rw [ih (cs.dropWhile hanziRunChar).length
              (by subst hn; exact Nat.lt_succ_of_le (List.dropWhile_sublist _).length_le)
              _ rfl]
        simp [List.takeWhile_append_dropWhile]
      · rw [cut_mixed]
        rw [if_neg hc]
        simp only [List.flatten_append]
        rw [splitSpan_join]
        rw [ih (cs.dropWhile (fun d => !hanziRunChar d)).length
              (by subst hn; exact Nat.lt_succ_of_le (List.dropWhile_sublist _).length_le)
              _ rfl]
        simp [List.takeWhile_append_dropWhile]

/-- Witness for C1 at a concrete mixed paragraph and the identity-like
segmenter, which preserves concatenation. -/
theorem C1_cut_mixed_join_witness :
    (cut_mixed (fun r => [r]) "你a，好".data).flatten = "你a，好".data :=
  C1_cut_mixed_join (fun r => [r]) (fun _ _ _ => by simp) _

-- ---------------------------------------------------------------------
-- C2: character range of Hanzi-run tokens
-- ---------------------------------------------------------------------

lemma splitSpan_mem_chars {t : Str} {c : Char} (l : Str) :
    ∀ buf : Str, t ∈ splitSpan buf l → c ∈ t → c ∈ buf ++ l := by
  induction l with
  | nil =>
    intro buf ht hc
    by_cases h : buf.isEmpty
    · simp [splitSpan, h] at ht
    · simp [splitSpan, h] at ht
      subst ht
      simp [hc]
  | cons ch rest ih =>
    intro buf ht hc
    by_cases hp : isOpenChar ch || isCloseChar ch
    · by_cases h : buf.isEmpty
      · simp [splitSpan, hp, h] at ht
        rcases ht with h2 | h2
        · subst h2
          rcases List.mem_singleton.mp hc with rfl
          simp
        · have := ih [] h2 hc
          simp at this
          simp [this]
      · simp [splitSpan, hp, h] at ht
        rcases ht with h2 | h2 | h2
        · subst h2
          simp [hc]
        · subst h2
          rcases List.mem_singleton.mp hc with rfl
          simp
        · have := ih [] h2 hc
          simp at this
          simp [this]
    · simp [splitSpan, hp] at ht
      have := ih (buf ++ [ch]) ht hc
      simpa using this

/-- Every token of `cut_mixed` either consists entirely of `HANZI_RUN`
characters (the tokens obtained from a maximal Hanzi run) or contains no
`HANZI_RUN` character at all (the tokens of a non-Hanzi span). -/
lemma cut_mixed_token_dichotomy (seg : Str → List Str)
    (hseg : ∀ r : Str, r ≠ [] → (∀ c ∈ r, hanziRunChar c) → (seg r).flatten = r) :
    ∀ s : Str, ∀ t ∈ cut_mixed seg s,
      (∀ c ∈ t, hanziRunChar c = true) ∨ (∀ c ∈ t, hanziRunChar c = false) := by
  intro s
  generalize hn : s.length = n
  induction n using Nat.strong_induction_on generalizing s with
  | _ n ih =>
    match s with
    | [] => simp [cut_mixed]
    | c :: cs =>
      intro t ht
      by_cases hc : hanziRunChar c
      · rw [cut_mixed, if_pos hc] at ht
        have hrun : ∀ x ∈ c :: cs.takeWhile hanziRunChar, hanziRunChar x := by
          intro x hx
          rcases List.mem_cons.mp hx with h | h
          · exact h ▸ hc
          · exact List.mem_takeWhile_imp h
        rcases List.mem_append.mp ht with h1 | h1
        · left
          intro x hx
          have hxrun : x ∈ (seg (c :: cs.takeWhile hanziRunChar)).flatten :=
            List.mem_flatten.mpr ⟨t, h1, hx⟩
          rw [hseg _ (by simp) hrun] at hxrun
          exact hrun x hxrun
        · exact ih (cs.dropWhile hanziRunChar).length
            (by subst hn; exact Nat.lt_succ_of_le (List.dropWhile_sublist _).length_le)
            _ rfl t h1
      · rw [cut_mixed, if_neg hc] at ht
        rcases List.mem_append.mp ht with h1 | h1
        · right
          intro x hx
          have hxspan := splitSpan_mem_chars _ [] h1 hx
          simp only [List.nil_append] at hxspan
          rcases List.mem_cons.mp hxspan with h | h
          · subst h
            exact Bool.not_eq_true _ ▸ (by simpa using hc)
          · have := List.mem_takeWhile_imp h
            simpa using this
        · exact ih (cs.dropWhile (fun d => !hanziRunChar d)).length
            (by subst hn; exact Nat.lt_succ_of_le (List.dropWhile_sublist _).length_le)
            _ rfl t h1

/-- C2 counterexample: with the concatenation-preserving segmenter
`fun r => [r]`, the paragraph consisting of the single character U+3400
(inside the `HANZI_RUN` class `[㐀-鿿]` but outside U+4E00–U+9FFF) produces
a token from a maximal Hanzi run that contains a character for which
`is_hanzi` — the range the renderers use — is false. -/
theorem C2_counterexample :
    ∃ t ∈ cut_mixed (fun r => [r]) [Char.ofNat 0x3400],
      ∃ c ∈ t, is_hanzi c = false := by
  have h : cut_mixed (fun r => [r]) [Char.ofNat 0x3400] = [[Char.ofNat 0x3400]] := by
    simp [cut_mixed, hanziRunChar]
  rw [h]
  refine ⟨[Char.ofNat 0x3400], by simp, Char.ofNat 0x3400, by simp, by decide⟩

/-- C2 amended: every token that `cut_mixed` produces from a maximal Hanzi
run consists only of characters of the `HANZI_RUN` class U+3400–U+9FFF
(formally: any token containing a `HANZI_RUN` character consists only of
such characters); this class strictly contains the U+4E00–U+9FFF range
(`is_hanzi`) that the renderers use to classify a token as a Hanzi word. -/
theorem C2_hanzi_token_range (seg : Str → List Str)
    (hseg : ∀ r : Str, r ≠ [] → (∀ c ∈ r, hanziRunChar c) → (seg r).flatten = r) :
    (∀ s : Str, ∀ t ∈ cut_mixed seg s,
        (∃ c ∈ t, hanziRunChar c = true) → ∀ c ∈ t, hanziRunChar c = true) ∧
    (∀ c : Char, is_hanzi c = true → hanziRunChar c = true) ∧
    (hanziRunChar (Char.ofNat 0x3400) = true ∧ is_hanzi (Char.ofNat 0x3400) = false) := by
  refine ⟨?_, ?_, by decide, by decide⟩
  · intro s t ht hex
    rcases cut_mixed_token_dichotomy seg hseg s t ht with h | h
    · exact h
    · rcases hex with ⟨c, hc, hrun⟩
      rw [h c hc] at hrun
      cases hrun
  · intro c h
    simp only [is_hanzi, hanziRunChar, Bool.and_eq_true, decide_eq_true_eq] at h ⊢
    omega

/-- Witness for C2's amended theorem: fully applied at the identity-like
segmenter, the token "你好" of the paragraph "你好", its member '你'
witnessing the Hanzi-run character, and the member '好'. -/
theorem C2_hanzi_token_range_witness :
    hanziRunChar '好' = true := by
  have hcut : cut_mixed (fun r => [r]) "你好".data = ["你好".data] := by
    simp [cut_mixed, hanziRunChar]
  exact (C2_hanzi_token_range (fun r => [r]) (fun _ _ _ => by simp)).1
    "你好".data "你好".data (by rw [hcut]; simp) ⟨'你', by simp, by decide⟩ '好' (by simp)

-- ---------------------------------------------------------------------
-- config.py: DIACRITIC_TO_TONE; text_formatter.py: detect_tone
-- ---------------------------------------------------------------------

/-- Source `DIACRITIC_TO_TONE` (config.py lines 47–52): diacritic vowels to
tone digits. -/
def DIACRITIC_TO_TONE : List (Char × Char) :=
  [('ā', '1'), ('ē', '1'), ('ī', '1'), ('ō', '1'), ('ū', '1'), ('ǖ', '1'),
   ('á', '2'), ('é', '2'), ('í', '2'), ('ó', '2'), ('ú', '2'), ('ǘ', '2'),
   ('ǎ', '3'), ('ě', '3'), ('ǐ', '3'), ('ǒ', '3'), ('ǔ', '3'), ('ǚ', '3'),
   ('à', '4'), ('è', '4'), ('ì', '4'), ('ò', '4'), ('ù', '4'), ('ǜ', '4')]

/-- Loop `for ch in syl: if ch in DIACRITIC_TO_TONE: return DIACRITIC_TO_TONE[ch]`
followed by `return "5"` (text_formatter.py lines 113–116). -/
def toneScan : Str → Char
  | [] => '5'
  | c :: cs =>
    match DIACRITIC_TO_TONE.lookup c with
    | some t => t
    | none => toneScan cs

/-- Source `detect_tone` (text_formatter.py lines 103–116).  Python's
`str.isdigit` is modelled as the ASCII decimal-digit test. -/
def detect_tone (syl : Str) : Char :=
  match syl.getLast? with
  | some c => if c.isDigit then c else toneScan syl
  | none => toneScan syl

-- ---------------------------------------------------------------------
-- C3 / C4: tone classifier
-- ---------------------------------------------------------------------

/-- C3 counterexample: on the syllable `"ma7"` the classifier returns the
trailing digit `'7'`, which is not a tone class in {1, 2, 3, 4, 5}. -/
theorem C3_counterexample :
    detect_tone "ma7".data = '7' ∧ detect_tone "ma7".data ∉ ['1', '2', '3', '4', '5'] := by
  decide

lemma lookup_val_mem {l : List (Char × Char)} {c t : Char}
    (h : l.lookup c = some t) : t ∈ l.map Prod.snd := by
  induction l with
  | nil => simp [List.lookup] at h
  | cons p rest ih =>
    rw [List.lookup_cons] at h
    cases hbeq : c == p.1 <;> simp [hbeq] at h
    · simpa using Or.inr (ih h)
    · simp [h]

lemma toneScan_mem (syl : Str) : toneScan syl ∈ ['1', '2', '3', '4', '5'] := by
  induction syl with
  | nil => simp [toneScan]
  | cons c cs ih =>
    cases h : DIACRITIC_TO_TONE.lookup c with
    | none => simpa [toneScan, h] using ih
    | some t =>
      have hv : t ∈ DIACRITIC_TO_TONE.map Prod.snd := lookup_val_mem h
      have : ∀ x ∈ DIACRITIC_TO_TONE.map Prod.snd, x ∈ ['1', '2', '3', '4', '5'] := by
        decide
      simpa [toneScan, h] using this t hv

/-- C3 amended: `detect_tone` is a total function (in particular it returns
the neutral tone `'5'` on the empty syllable), and its result is either a
tone class in {1, 2, 3, 4, 5} or, when the syllable ends in a digit, that
trailing digit itself (which may lie outside 1–5, as in `"ma7"`). -/
theorem C3_detect_tone_total :
    (∀ syl : Str, detect_tone syl ∈ ['1', '2', '3', '4', '5'] ∨
      (syl.getLast? = some (detect_tone syl) ∧ (detect_tone syl).isDigit = true)) ∧
    detect_tone [] = '5' := by
  constructor
  · intro syl
    match hl : syl.getLast? with
    | none =>
      left
      have := toneScan_mem syl
      simpa [detect_tone, hl] using this
    | some c =>
      by_cases hd : c.isDigit
      · right
        simp [detect_tone, hl, hd]
      · left
        have := toneScan_mem syl
        simpa [detect_tone, hl, hd] using this
  · decide

/-- First character of the syllable found in the diacritic table, as in the
spec's description of the classifier. -/
def firstDiacritic (syl : Str) : Option Char :=
  syl.find? (fun ch => (DIACRITIC_TO_TONE.lookup ch).isSome)

/-- Tone classifier exactly as the spec words it: trailing digit if present,
otherwise the table entry of the first diacritic found scanning left to
right, otherwise neutral `'5'`. -/
def classify_spec (syl : Str) : Char :=
  match syl.getLast? with
  | some c =>
    if c.isDigit then c
    else
      match firstDiacritic syl with
      | some ch => (DIACRITIC_TO_TONE.lookup ch).getD '5'
      | none => '5'
  | none => '5'

lemma toneScan_eq_spec (syl : Str) :
    toneScan syl =
      match firstDiacritic syl with
      | some ch => (DIACRITIC_TO_TONE.lookup ch).getD '5'
      | none => '5' := by
  induction syl with
  | nil => simp [toneScan, firstDiacritic]
  | cons c cs ih =>
    cases h : DIACRITIC_TO_TONE.lookup c with
    | none => simpa [toneScan, h, firstDiacritic, List.find?_cons, Option.isSome] using ih
    | some t => simp [toneScan, h, firstDiacritic, List.find?_cons, Option.isSome]

/-- C4: `detect_tone` implements exactly the claimed algorithm (trailing
digit, else first diacritic found in the fixed table, else neutral 5), and
in particular classifies `"ma"` as 5, `"ma3"` as 3 and `"mǎ"` as 3. -/
theorem C4_detect_tone_algorithm :
    (∀ syl : Str, detect_tone syl = classify_spec syl) ∧
    detect_tone "ma".data = '5' ∧
    detect_tone "ma3".data = '3' ∧
    detect_tone "mǎ".data = '3' := by
  refine ⟨?_, by decide, by decide, by decide⟩
  intro syl
  match hl : syl.getLast? with
  | none =>
    have hnil : syl = [] := List.getLast?_eq_none_iff.mp hl
    subst hnil
    decide
  | some c =>
    by_cases hd : c.isDigit
    · simp [detect_tone, classify_spec, hl, hd]
    · simp [detect_tone, classify_spec, hl, hd, toneScan_eq_spec]

-- ---------------------------------------------------------------------
-- text_formatter.py: parse_paragraphs
-- ---------------------------------------------------------------------

/-- ASCII whitespace, modelling the characters Python's `str.strip` and
`str.split` treat as whitespace. -/
def isWs (c : Char) : Bool :=
  c = ' ' || c = '\t' || c = '\n' || c = '\r' || c = '\x0b' || c = '\x0c'

/-- Python `str.strip()`: drop leading and trailing whitespace. -/
def pyStrip (s : Str) : Str :=
  ((s.dropWhile isWs).reverse.dropWhile isWs).reverse

/-- Python `str.splitlines()` restricted to the `'\n'` terminator: no empty
trailing line, `""` gives no lines. -/
def splitlines : Str → List Str
  | [] => []
  | c :: cs =>
    if c = '\n' then [] :: splitlines cs
    else
      match splitlines cs with
      | [] => [[c]]
      | l :: ls => (c :: l) :: ls

/-- Loop of `parse_paragraphs` (text_formatter.py lines 33–42) over the raw
lines, with the pending `buffer` of stripped non-blank lines. -/
def parseGo : List Str → List Str → List Str
  | [], buffer => if buffer.isEmpty then [] else [List.intercalate [' '] buffer]
  | line :: ls, buffer =>
    let clean := pyStrip line
    if !clean.isEmpty then parseGo ls (buffer ++ [clean])
    else if !buffer.isEmpty then List.intercalate [' '] buffer :: parseGo ls []
    else parseGo ls []

/-- Source `parse_paragraphs` (text_formatter.py lines 26–43). -/
def parse_paragraphs (text : Str) : List Str :=
  parseGo (splitlines text) []

/-- Maximal groups of consecutive non-blank lines, the spec's notion of the
groups separated by one or more blank lines (on already-stripped lines). -/
def paragraph_groups : List Str → List (List Str)
  | [] => []
  | l :: ls =>
    if l.isEmpty then paragraph_groups ls
    else
      (l :: ls.takeWhile (fun x => !x.isEmpty)) ::
        paragraph_groups (ls.dropWhile (fun x => !x.isEmpty))
termination_by ls => ls.length
decreasing_by
  · exact Nat.lt_succ_of_le (Nat.le_refl _)
  · exact Nat.lt_succ_of_le (List.dropWhile_sublist _).length_le

-- ---------------------------------------------------------------------
-- C9: paragraph splitter round-trip
-- ---------------------------------------------------------------------

/-- Variant of `parseGo` on lines that are already stripped. -/
def parseGoS : List Str → List Str → List Str
  | [], buffer => if buffer.isEmpty then [] else [List.intercalate [' '] buffer]
  | l :: ls, buffer =>
    if !l.isEmpty then parseGoS ls (buffer ++ [l])
    else if !buffer.isEmpty then List.intercalate [' '] buffer :: parseGoS ls []
    else parseGoS ls []

lemma parseGo_eq_parseGoS (lines : List Str) :
    ∀ buffer, parseGo lines buffer = parseGoS (lines.map pyStrip) buffer := by
  induction lines with
  | nil => intro buffer; rfl
  | cons line ls ih =>
    intro buffer
    by_cases h : (pyStrip line).isEmpty
    · by_cases hb : buffer.isEmpty
      · simp [parseGo, parseGoS, h, hb, ih]
      · simp [parseGo, parseGoS, h, hb, ih]
    · simp [parseGo, parseGoS, h, ih]

lemma parseGoS_spec (sl : List Str) :
    ∀ buffer : List Str,
      parseGoS sl buffer =
        if buffer.isEmpty then
          (paragraph_groups sl).map (List.intercalate [' '])
        else
          List.intercalate [' '] (buffer ++ sl.takeWhile (fun x => !x.isEmpty)) ::
            (paragraph_groups (sl.dropWhile (fun x => !x.isEmpty))).map
              (List.intercalate [' ']) := by
  generalize hn : sl.length = n
  induction n using Nat.strong_induction_on generalizing sl with
  | _ n ih =>
    match sl with
    | [] =>
      intro buffer
      by_cases hb : buffer.isEmpty
      · simp [parseGoS, hb, paragraph_groups]
      · simp [parseGoS, hb, paragraph_groups]
    | l :: ls =>
      intro buffer
      by_cases hl : l.isEmpty
      · have hrec := ih ls.length (by subst hn; simp) ls rfl []
        rw [if_pos (by simp : (([] : List Str).isEmpty = true))] at hrec
        by_cases hb : buffer.isEmpty
        · simp [parseGoS, hl, hb, paragraph_groups, hrec]
        · have hl' : l = [] := List.isEmpty_iff.mp hl
          simp [parseGoS, hl, hb, paragraph_groups, hrec, hl']
      · have hrec := ih ls.length (by subst hn; simp) ls rfl (buffer ++ [l])
        have hne : ¬(buffer ++ [l]).isEmpty = true := by simp
        rw [if_neg hne] at hrec
        by_cases hb : buffer.isEmpty
        · have hb' : buffer = [] := List.isEmpty_iff.mp hb
          subst hb'
          simpa [parseGoS, paragraph_groups, hl] using hrec
        · simp [parseGoS, hl, hb, paragraph_groups, hrec]

lemma paragraph_groups_all_nonblank (sl : List Str) (hne : sl ≠ [])
    (h : ∀ l ∈ sl, l.isEmpty = false) : paragraph_groups sl = [sl] := by
  match sl with
  | [] => exact absurd rfl hne
  | l :: ls =>
    have hl : l.isEmpty = false := h l (by simp)
    have htw : ls.takeWhile (fun x => !x.isEmpty) = ls :=
      List.takeWhile_eq_self_iff.mpr (by intro x hx; simp [h x (by simp [hx])])
    have hdw : ls.dropWhile (fun x => !x.isEmpty) = [] :=
      List.dropWhile_eq_nil_iff.mpr (by intro x hx; simp [h x (by simp [hx])])
    rw [paragraph_groups]
    simp [hl, htw, hdw, paragraph_groups]

/-- C9 counterexample: the empty text contains no lines at all — hence no
blank lines — yet the Paragraph Splitter yields zero paragraphs, not one. -/
theorem C9_counterexample :
    splitlines "".data = [] ∧
    (∀ l ∈ splitlines "".data, (pyStrip l).isEmpty = false) ∧
    (parse_paragraphs "".data).length ≠ 1 := by
  refine ⟨rfl, by decide, by decide⟩

/-- C9 amended: `parse_paragraphs` yields exactly the blank-line-separated
groups of stripped lines, each joined by single spaces (N groups give N
paragraphs); any text with at least one line and no blank lines yields
exactly one paragraph, its stripped lines space-joined. -/
theorem C9_parse_paragraphs_groups (text : Str) :
    parse_paragraphs text =
      (paragraph_groups ((splitlines text).map pyStrip)).map (List.intercalate [' ']) ∧
    (splitlines text ≠ [] →
      (∀ l ∈ splitlines text, (pyStrip l).isEmpty = false) →
      parse_paragraphs text =
        [List.intercalate [' '] ((splitlines text).map pyStrip)]) := by
  have hmain : parse_paragraphs text =
      (paragraph_groups ((splitlines text).map pyStrip)).map (List.intercalate [' ']) := by
    rw [parse_paragraphs, parseGo_eq_parseGoS, parseGoS_spec]
    simp
  refine ⟨hmain, ?_⟩
  intro hne hnb
  rw [hmain, paragraph_groups_all_nonblank]
  · simp
  · simpa using hne
  · intro l hh
    rcases List.mem_map.mp hh with ⟨x, hx, rfl⟩
    exact hnb x hx

/-- Witness for C9's amended theorem at a concrete two-line text with no
blank lines. -/
theorem C9_parse_paragraphs_groups_witness :
    parse_paragraphs " a\nb ".data =
      [List.intercalate [' '] ((splitlines " a\nb ".data).map pyStrip)] :=
  (C9_parse_paragraphs_groups " a\nb ".data).2 (by decide) (by decide)

-- ---------------------------------------------------------------------
-- config.py: TONE_COLORS; text_formatter.py: colorize_pinyin
-- ---------------------------------------------------------------------

/-- Source `TONE_COLORS` (config.py lines 34–40). -/
def TONE_COLORS : List (Char × Str) :=
  [('1', "red".data), ('2', "green!50!black".data), ('3', "blue".data),
   ('4', "orange".data), ('5', "gray".data)]

/-- Source `colorize_pinyin` (text_formatter.py lines 119–123):
`\pysyl{color}{syl}` with the tone color (default `black`). -/
def colorize_pinyin (syl : Str) : Str :=
  let tone := detect_tone syl
  let color := (TONE_COLORS.lookup tone).getD "black".data
  "\\pysyl\x7b".data ++ color ++ "\x7d\x7b".data ++ syl ++ "\x7d".data

-- ---------------------------------------------------------------------
-- text_formatter.py: build_hsk_map
-- ---------------------------------------------------------------------

/-- One row of the HSK dataframe.  A `none` field models a pandas missing
value (NaN); `level` is the integer level column. -/
structure HskRow where
  hanzi : Option Str
  pinyin_tone : Option Str
  pinyin_num : Option Str
  english : Option Str
  pos : Option Str
  level : Option Int
  tts_url : Option Str
deriving DecidableEq

/-- The per-Hanzi metadata dictionary value built by `build_hsk_map`
(text_formatter.py lines 168–176). -/
structure HskEntry where
  level : Option Int
  level_display : Str
  pinyin : Str
  pos : Str
  english : Str
  audio : Str
  tip : Str
deriving DecidableEq

/-- The `hsk_map` dictionary: insertion-ordered association list. -/
abbrev HskMap := List (Str × HskEntry)

/-- Python dict assignment `d[k] = v`: replace in place if the key exists,
otherwise append. -/
def dictInsert {β : Type} (m : List (Str × β)) (k : Str) (v : β) : List (Str × β) :=
  match m with
  | [] => [(k, v)]
  | (k', v') :: rest => if k' = k then (k, v) :: rest else (k', v') :: dictInsert rest k v

/-- Python `str.split()` (no argument): split on whitespace runs, no empty
parts.  `buf` is the pending word. -/
def splitWsGo (buf : Str) : Str → List Str
  | [] => if buf.isEmpty then [] else [buf]
  | c :: cs =>
    if isWs c then (if buf.isEmpty then [] else [buf]) ++ splitWsGo [] cs
    else splitWsGo (buf ++ [c]) cs

/-- Python `str.split()` on a romanization field. -/
def splitWs (s : Str) : List Str := splitWsGo [] s

/-- Python `str.capitalize()`: first character uppercased, the rest
lowercased. -/
def pyCapitalize : Str → Str
  | [] => []
  | c :: cs => c.toUpper :: cs.map Char.toLower

/-- The `\href{...}{\faVolumeUp}` audio link (text_formatter.py line 156). -/
def hrefAudio (u : Str) : Str :=
  "\\href\x7b".data ++ u ++ "\x7d\x7b\\faVolumeUp\x7d".data

/-- Entry construction for one surviving row (text_formatter.py lines
145–176).  pandas NaN in a kept column renders as Python `str(nan) = "nan"`
and is truthy, which the `Option.getD "nan"` / `none`-branches reproduce;
`TONE_STYLE = Style.TONE`, so the romanization column is `pinyin_tone`. -/
def mkEntry (row : HskRow) (praw eng : Str) : HskEntry :=
  let syllables := splitWs praw
  let pinyin_display := syllables.flatten
  let pinyin_colorized := (syllables.map colorize_pinyin).flatten
  let english_display := pyCapitalize eng
  let pos_display := row.pos.getD "nan".data
  let level_display :=
    match row.level with
    | none => "HSK nan".data
    | some l => if l = 0 then [] else "HSK ".data ++ (toString l).data
  let audio :=
    match row.tts_url with
    | none => hrefAudio "nan".data
    | some u => if u.isEmpty then [] else hrefAudio u
  let tip := List.intercalate ",\t ".data
      (([level_display, pinyin_display, pos_display, english_display]).filter
        (fun x => !x.isEmpty))
  { level := row.level, level_display := level_display, pinyin := pinyin_colorized,
    pos := pos_display, english := english_display, audio := audio, tip := tip }

/-- Row loop of `build_hsk_map` (text_formatter.py lines 141–176).  A row
whose `hanzi` is empty is skipped; accessing `.split()` on a NaN
romanization or `.capitalize()` on a NaN translation raises
`AttributeError`, modelled as `Except.error`. -/
def build_fold : HskMap → List HskRow → Except Str HskMap
  | m, [] => .ok m
  | m, row :: rest =>
    match row.hanzi with
    | none => build_fold m rest
    | some h =>
      if h.isEmpty then build_fold m rest
      else
        match row.pinyin_tone with
        | none => .error "AttributeError: split".data
        | some praw =>
          match row.english with
          | none => .error "AttributeError: capitalize".data
          | some eng => build_fold (dictInsert m h (mkEntry row praw eng)) rest

/-- Source `build_hsk_map` (text_formatter.py lines 129–178): empty frame
gives the empty index; `dropna(subset=["hanzi"])` removes rows whose
`hanzi` is NaN before the row loop. -/
def build_hsk_map (rows : List HskRow) : Except Str HskMap :=
  if rows.isEmpty then .ok []
  else build_fold [] (rows.filter (fun r => r.hanzi.isSome))

-- ---------------------------------------------------------------------
-- C5: which malformed rows are skipped
-- ---------------------------------------------------------------------

/-- A row whose `english` field is missing (NaN) but whose other fields are
present and well-formed. -/
def rowMissingEnglish : HskRow :=
  { hanzi := some "你".data, pinyin_tone := some "nǐ".data,
    pinyin_num := some "ni3".data, english := none, pos := some "pron".data,
    level := some 1, tts_url := none }

/-- C5 counterexample: a dataset row missing the required `english` field is
not skipped — it makes `build_hsk_map` fail (`AttributeError` on
`nan.capitalize()`), so the builder does not return an index built from the
remaining rows. -/
theorem C5_counterexample :
    build_hsk_map [rowMissingEnglish] = .error "AttributeError: capitalize".data := by
  rfl

lemma build_fold_isOk (l : List HskRow) :
    ∀ m : HskMap,
      (∀ r ∈ l, r.hanzi ≠ none → r.hanzi ≠ some [] →
        r.pinyin_tone ≠ none ∧ r.english ≠ none) →
      (build_fold m l).isOk = true := by
  induction l with
  | nil => intro m _; rfl
  | cons row rest ih =>
    intro m hl
    match hh : row.hanzi with
    | none => simpa [build_fold, hh] using ih m (fun r hr => hl r (by simp [hr]))
    | some h =>
      by_cases he : h.isEmpty
      · simpa [build_fold, hh, he] using ih m (fun r hr => hl r (by simp [hr]))
      · have hrow := hl row (by simp)
        have hgood := hrow (by simp [hh]) (by
          simp only [hh]
          intro hcon
          rcases Option.some.inj hcon with rfl
          simp at he)
        match hp : row.pinyin_tone with
        | none => exact absurd hp hgood.1
        | some praw =>
          match heng : row.english with
          | none => exact absurd heng hgood.2
          | some eng =>
            simpa [build_fold, hh, he, hp, heng] using
              ih (dictInsert m h (mkEntry row praw eng))
                (fun r hr => hl r (by simp [hr]))

/-- C5 amended: a row with missing (NaN) or empty `hanzi` is skipped and
never causes `build_hsk_map` to fail, but rows missing the romanization
(`pinyin_tone`) or the translation (`english`) are not skipped: they abort
the whole build.  The builder succeeds whenever every row that survives the
hanzi filter has those two fields present. -/
theorem C5_build_hsk_map_malformed :
    (∀ (r : HskRow) (rows : List HskRow), (r.hanzi = none ∨ r.hanzi = some []) →
      build_hsk_map (r :: rows) = build_hsk_map rows) ∧
    (∀ rows : List HskRow,
      (∀ r ∈ rows, r.hanzi ≠ none → r.hanzi ≠ some [] →
        r.pinyin_tone ≠ none ∧ r.english ≠ none) →
      (build_hsk_map rows).isOk = true) := by
  constructor
  · intro r rows hr
    have hstep : build_fold [] ((r :: rows).filter (fun x => x.hanzi.isSome)) =
        build_fold [] (rows.filter (fun x => x.hanzi.isSome)) := by
      rcases hr with h | h
      · simp [List.filter_cons, h]
      · simp [List.filter_cons, h, build_fold]
    rw [build_hsk_map, build_hsk_map]
    simp only [List.isEmpty_cons, if_false, Bool.false_eq_true]
    by_cases hrows : rows.isEmpty
    · have : rows = [] := List.isEmpty_iff.mp hrows
      subst this
      rcases hr with h | h
      · simp [hstep, build_fold]
      · simp [hstep, build_fold]
    · simp [hrows, hstep]
  · intro rows hrows
    rw [build_hsk_map]
    by_cases hg : rows.isEmpty
    · rw [if_pos hg]
      rfl
    · simp only [hg, if_false, Bool.false_eq_true]
      exact build_fold_isOk _ [] (fun r hr => hrows r (List.mem_of_mem_filter hr))

/-- Witness for C5's amended theorem: a NaN-`hanzi` row is dropped in front
of a well-formed row, and the well-formed table builds successfully. -/
theorem C5_build_hsk_map_malformed_witness :
    build_hsk_map
        [{ hanzi := none, pinyin_tone := none, pinyin_num := none, english := none,
           pos := none, level := none, tts_url := none },
         { hanzi := some "你".data, pinyin_tone := some "nǐ".data,
           pinyin_num := some "ni3".data, english := some "you".data,
           pos := some "pron".data, level := some 1, tts_url := none }] =
      build_hsk_map
        [{ hanzi := some "你".data, pinyin_tone := some "nǐ".data,
           pinyin_num := some "ni3".data, english := some "you".data,
           pos := some "pron".data, level := some 1, tts_url := none }] ∧
    (build_hsk_map
        [{ hanzi := some "你".data, pinyin_tone := some "nǐ".data,
           pinyin_num := some "ni3".data, english := some "you".data,
           pos := some "pron".data, level := some 1, tts_url := none }]).isOk = true :=
  ⟨C5_build_hsk_map_malformed.1 _ _ (Or.inl rfl),
   C5_build_hsk_map_malformed.2 _ (by decide)⟩

-- ---------------------------------------------------------------------
-- text_formatter.py: pinyin_only
-- ---------------------------------------------------------------------

/-- The `\pywordsep{}` word-separator marker appended between units. -/
def pywordsep : Str := "\\pywordsep\x7b\x7d".data

/-- Source `next_is_punct` (text_formatter.py lines 276–281), phrased on the
list of tokens after the current one: the next token exists and fully
matches the close or open punctuation pattern. -/
def nextIsPunct (rest : List Str) : Bool :=
  match rest with
  | [] => false
  | t :: _ => matchClose t || matchOpen t

/-- Romanization of one Hanzi word (text_formatter.py lines 292–293): the
external `pypinyin` result `py tok` (one syllable per character), each
syllable tone-colorized, concatenated with no internal separator. -/
def pyWordOf (py : Str → List Str) (tok : Str) : Str :=
  ((py tok).map colorize_pinyin).flatten

/-- Token loop of `pinyin_only` (text_formatter.py lines 290–323).
`pieces` is the accumulated output list (units and separator markers),
`pending` the buffered open punctuation; a leftover pending buffer is
appended at the end (line 322–323).  In the Hanzi and Latin branches the
source guards the `pending_open + word` concatenation with
`if pending_open:`; since concatenating an empty buffer is the identity the
unguarded concatenation is the same function. -/
def pyLoop (py : Str → List Str) : List Str → Str → List Str → List Str
  | pieces, pending, [] => if pending.isEmpty then pieces else pieces ++ [pending]
  | pieces, pending, tok :: rest =>
    if is_hanzi_word tok then
      let word := pending ++ pyWordOf py tok
      let pieces1 := pieces ++ [word]
      let pieces2 :=
        if !(nextIsPunct rest || rest.isEmpty) then pieces1 ++ [pywordsep] else pieces1
      pyLoop py pieces2 [] rest
    else if matchOpen tok then
      pyLoop py pieces (pending ++ tok) rest
    else if matchClose tok then
      let pieces1 :=
        match pieces.getLast? with
        | some lastPiece => pieces.dropLast ++ [lastPiece ++ tok]
        | none => [tok]
      let pieces2 :=
        if !rest.isEmpty && !nextIsPunct rest then pieces1 ++ [pywordsep] else pieces1
      pyLoop py pieces2 pending rest
    else
      let word := pending ++ tok
      let pieces1 := pieces ++ [word]
      let pieces2 :=
        if !(nextIsPunct rest || rest.isEmpty) then pieces1 ++ [pywordsep] else pieces1
      pyLoop py pieces2 [] rest

/-- One paragraph of `pinyin_only`: `"".join(pieces)`. -/
def pinyin_only_para (py seg : Str → List Str) (para : Str) : Str :=
  (pyLoop py [] [] (cut_mixed seg para)).flatten

/-- Source `pinyin_only` (text_formatter.py lines 266–326). -/
def pinyin_only (py seg : Str → List Str) (paragraphs : List Str) : Str :=
  List.intercalate "\n\n".data (paragraphs.map (pinyin_only_para py seg))

-- ---------------------------------------------------------------------
-- C6 / C7: spec-side unit view of pinyin_only
-- ---------------------------------------------------------------------

/-- The claims' separator rule, decided at an emitting token from the tokens
after it: a separator follows iff the token is not the paragraph's last and
the immediately following token is not punctuation of either binding
direction. -/
def sepAfter (rest : List Str) : Bool :=
  !rest.isEmpty && !nextIsPunct rest

/-- Emitted units with separator flags, written from claim C7's wording:
open punctuation accumulates in the pending buffer and prefixes the next
emitted unit; close punctuation is appended as a suffix to the last emitted
unit (whose separator flag is re-decided at the close token) or becomes its
own unit when none has been emitted; a leftover pending buffer becomes a
trailing unit with no separator. -/
def pyUnits (py : Str → List Str) : Str → List (Str × Bool) → List Str → List (Str × Bool)
  | pending, acc, [] => if pending.isEmpty then acc else acc ++ [(pending, false)]
  | pending, acc, tok :: rest =>
    if is_hanzi_word tok then
      pyUnits py [] (acc ++ [(pending ++ pyWordOf py tok, sepAfter rest)]) rest
    else if matchOpen tok then
      pyUnits py (pending ++ tok) acc rest
    else if matchClose tok then
      match acc.getLast? with
      | some u => pyUnits py pending (acc.dropLast ++ [(u.1 ++ tok, sepAfter rest)]) rest
      | none => pyUnits py pending [(tok, sepAfter rest)] rest
    else
      pyUnits py [] (acc ++ [(pending ++ tok, sepAfter rest)]) rest

/-- Flattening a unit list into the pieces list: each unit contributes its
string and, if flagged, a following separator marker. -/
def unitsFlatten (us : List (Str × Bool)) : List Str :=
  (us.map (fun u => u.1 :: if u.2 then [pywordsep] else [])).flatten

/-- Number of separator markers the claim C6 rule mandates: one for every
token that emits or extends a unit (i.e. is not open punctuation), is not
the paragraph's last token, and is not followed by punctuation. -/
def claimCount : List Str → Nat
  | [] => 0
  | tok :: rest =>
    (if matchOpen tok = false ∧ sepAfter rest = true then 1 else 0) + claimCount rest

/-- Invariant tying a unit accumulator to the remaining tokens: a trailing
`true` separator flag was decided by lookahead, so the next token exists
and is not punctuation. -/
def InvP (acc : List (Str × Bool)) (toks : List Str) : Prop :=
  ∀ u : Str × Bool, acc.getLast? = some u → u.2 = true → sepAfter toks = true

lemma unitsFlatten_concat (us : List (Str × Bool)) (w : Str) (f : Bool) :
    unitsFlatten (us ++ [(w, f)]) =
      unitsFlatten us ++ w :: (if f then [pywordsep] else []) := by
  simp [unitsFlatten]

lemma cond_eq_sepAfter (rest : List Str) :
    (!(nextIsPunct rest || rest.isEmpty)) = sepAfter rest := by
  simp [sepAfter, Bool.not_or, Bool.and_comm]

lemma open_char_not_hanzi {c : Char} (h : isOpenChar c = true) : is_hanzi c = false := by
  simp only [isOpenChar, Bool.or_eq_true, decide_eq_true_eq] at h
  rcases h with (((((((((((h | h) | h) | h) | h) | h) | h) | h) | h) | h) | h) | h) <;>
    subst h <;> rfl

lemma hanzi_word_not_open {t : Str} (h : is_hanzi_word t = true) : matchOpen t = false := by
  cases t with
  | nil => rfl
  | cons c cs =>
    have hc : is_hanzi c = true := by
      simp [is_hanzi_word] at h
      exact h.1
    by_contra hne
    have hm : matchOpen (c :: cs) = true := by
      revert hne
      cases matchOpen (c :: cs) <;> simp
    have hoc : isOpenChar c = true := by
      simp [matchOpen] at hm
      exact hm.1
    rw [open_char_not_hanzi hoc] at hc
    cases hc

lemma pyLoop_eq_unitsFlatten (py : Str → List Str) (toks : List Str) :
    ∀ (pending : Str) (acc : List (Str × Bool)), InvP acc toks →
      pyLoop py (unitsFlatten acc) pending toks =
        unitsFlatten (pyUnits py pending acc toks) := by
  induction toks with
  | nil =>
    intro pending acc _
    by_cases hp : pending.isEmpty
    · simp [pyLoop, pyUnits, hp]
    · simp [pyLoop, pyUnits, hp, unitsFlatten_concat]
  | cons tok rest ih =>
    intro pending acc hInv
    by_cases hhz : is_hanzi_word tok = true
    · have hInv' : InvP (acc ++ [(pending ++ pyWordOf py tok, sepAfter rest)]) rest := by
        intro u hu hf
        rw [List.getLast?_concat] at hu
        rcases Option.some.inj hu with rfl
        exact hf
      simp only [pyLoop, pyUnits, hhz, if_true]
      rw [cond_eq_sepAfter]
      rw [← ih [] _ hInv']
      congr 1
      rw [unitsFlatten_concat]
      by_cases hs : sepAfter rest = true
      · simp [hs]
      · simp [hs]
    · by_cases hop : matchOpen tok = true
      · have hInv' : InvP acc rest := by
          intro u hu hf
          have := hInv u hu hf
          simp [sepAfter, nextIsPunct, hop] at this
        simp only [pyLoop, pyUnits, hhz, hop, Bool.false_eq_true, if_false, if_true]
        exact ih (pending ++ tok) acc hInv'
      · by_cases hcl : matchClose tok = true
        · rcases List.eq_nil_or_concat acc with rfl | ⟨l', u, rfl⟩
          · have hInv' : InvP [(tok, sepAfter rest)] rest := by
              intro v hv hf
              simp at hv
              subst hv
              exact hf
            simp only [pyLoop, pyUnits, hhz, hop, hcl, Bool.false_eq_true, if_false,
              if_true]
            rw [show unitsFlatten [] = [] from rfl]
            simp only [List.getLast?_nil]
            rw [← ih pending _ hInv']
            congr 1
            unfold sepAfter
            by_cases hs : (!rest.isEmpty && !nextIsPunct rest) = true
            · simp [hs, unitsFlatten]
            · simp [hs, unitsFlatten]
          · have hu2 : u.2 = false := by
              by_contra hne
              have hu2t : u.2 = true := by
                revert hne
                cases u.2 <;> simp
              have hsep := hInv u (by simp) hu2t
              simp [sepAfter, nextIsPunct, hcl] at hsep
            have huf : unitsFlatten (l'.concat u) = unitsFlatten l' ++ [u.1] := by
              rcases u with ⟨w, f⟩
              simp only at hu2
              subst hu2
              simp [List.concat_eq_append, unitsFlatten_concat]
            have hInv' : InvP (l' ++ [(u.1 ++ tok, sepAfter rest)]) rest := by
              intro v hv hf
              rw [List.getLast?_concat] at hv
              rcases Option.some.inj hv with rfl
              exact hf
            simp only [pyLoop, pyUnits, hhz, hop, hcl, Bool.false_eq_true, if_false,
              if_true]
            rw [huf]
            rw [List.getLast?_concat, List.dropLast_concat]
            simp only [List.concat_eq_append, List.getLast?_concat]
            rw [List.dropLast_concat]
            rw [← ih pending _ hInv']
            congr 1
            rw [unitsFlatten_concat]
            unfold sepAfter
            by_cases hs : (!rest.isEmpty && !nextIsPunct rest) = true
            · simp [hs]
            · simp [hs]
        · have hInv' : InvP (acc ++ [(pending ++ tok, sepAfter rest)]) rest := by
            intro u hu hf
            rw [List.getLast?_concat] at hu
            rcases Option.some.inj hu with rfl
            exact hf
          simp only [pyLoop, pyUnits, hhz, hop, hcl, Bool.false_eq_true, if_false,
            if_true]
          rw [cond_eq_sepAfter]
          rw [← ih [] _ hInv']
          congr 1
          rw [unitsFlatten_concat]
          by_cases hs : sepAfter rest = true
          · simp [hs]
          · simp [hs]

lemma pyUnits_count (py : Str → List Str) (toks : List Str) :
    ∀ (pending : Str) (acc : List (Str × Bool)), InvP acc toks →
      (pyUnits py pending acc toks).countP (fun u => u.2) =
        acc.countP (fun u => u.2) + claimCount toks := by
  induction toks with
  | nil =>
    intro pending acc _
    by_cases hp : pending.isEmpty
    · simp [pyUnits, hp, claimCount]
    · simp [pyUnits, hp, claimCount, List.countP_append, List.countP_cons]
  | cons tok rest ih =>
    intro pending acc hInv
    by_cases hhz : is_hanzi_word tok = true
    · have hInv' : InvP (acc ++ [(pending ++ pyWordOf py tok, sepAfter rest)]) rest := by
        intro u hu hf
        rw [List.getLast?_concat] at hu
        rcases Option.some.inj hu with rfl
        exact hf
      simp only [pyUnits, hhz, if_true, claimCount]
      rw [ih [] _ hInv']
      rw [List.countP_append]
      have hno := hanzi_word_not_open hhz
      by_cases hs : sepAfter rest = true
      · simp [List.countP_cons, hs, hno] <;> omega
      · simp [List.countP_cons, hs, hno] <;> omega
    · by_cases hop : matchOpen tok = true
      · have hInv' : InvP acc rest := by
          intro u hu hf
          have := hInv u hu hf
          simp [sepAfter, nextIsPunct, hop] at this
        simp only [pyUnits, hhz, hop, Bool.false_eq_true, if_false, if_true, claimCount]
        rw [ih (pending ++ tok) acc hInv']
        simp [hop]
      · by_cases hcl : matchClose tok = true
        · rcases List.eq_nil_or_concat acc with rfl | ⟨l', u, rfl⟩
          · have hInv' : InvP [(tok, sepAfter rest)] rest := by
              intro v hv hf
              simp at hv
              subst hv
              exact hf
            simp only [pyUnits, hhz, hop, hcl, Bool.false_eq_true, if_false, if_true,
              List.getLast?_nil, claimCount]
            rw [show ([(tok, sepAfter rest)] : List (Str × Bool)) =
                  [] ++ [(tok, sepAfter rest)] from rfl] at hInv' ⊢
            rw [ih pending _ hInv']
            rw [List.countP_append]
            by_cases hs : sepAfter rest = true
            · simp [List.countP_cons, hs, hop] <;> omega
            · simp [List.countP_cons, hs, hop] <;> omega
          · have hu2 : u.2 = false := by
              by_contra hne
              have hu2t : u.2 = true := by
                revert hne
                cases u.2 <;> simp
              have hsep := hInv u (by simp) hu2t
              simp [sepAfter, nextIsPunct, hcl] at hsep
            have hInv' : InvP (l' ++ [(u.1 ++ tok, sepAfter rest)]) rest := by
              intro v hv hf
              rw [List.getLast?_concat] at hv
              rcases Option.some.inj hv with rfl
              exact hf
            simp only [pyUnits, hhz, hop, hcl, Bool.false_eq_true, if_false, if_true,
              List.concat_eq_append, List.getLast?_concat, List.dropLast_concat,
              claimCount]
            rw [ih pending _ hInv']
            rw [List.countP_append, List.countP_append]
            by_cases hs : sepAfter rest = true
            · simp [List.countP_cons, hs, hop, hu2] <;> omega
            · simp [List.countP_cons, hs, hop, hu2] <;> omega
        · have hInv' : InvP (acc ++ [(pending ++ tok, sepAfter rest)]) rest := by
            intro u hu hf
            rw [List.getLast?_concat] at hu
            rcases Option.some.inj hu with rfl
            exact hf
          simp only [pyUnits, hhz, hop, hcl, Bool.false_eq_true, if_false, if_true,
            claimCount]
          rw [ih [] _ hInv']
          rw [List.countP_append]
          by_cases hs : sepAfter rest = true
          · simp [List.countP_cons, hs, hop] <;> omega
          · simp [List.countP_cons, hs, hop] <;> omega

/-- C7: for every paragraph, the pieces list built by the `pinyin_only`
token loop equals the flattening of the spec-side unit view `pyUnits`, in
which open punctuation only accumulates in the pending buffer and prefixes
the next emitted unit (never its own unit mid-paragraph), close punctuation
is appended as a suffix to the immediately preceding emitted unit or
becomes its own unit when none exists yet, and a leftover pending buffer is
appended as a trailing unit. -/
theorem C7_pinyin_only_attachment (py seg : Str → List Str) (para : Str) :
    pyLoop py [] [] (cut_mixed seg para) =
      unitsFlatten (pyUnits py [] [] (cut_mixed seg para)) := by
  have h := pyLoop_eq_unitsFlatten py (cut_mixed seg para) [] []
    (by intro u hu _; simp at hu)
  simpa [unitsFlatten] using h

/-- C6: for every paragraph, the number of word-separator markers emitted by
the `pinyin_only` loop (visible through the unit view, which the rendered
paragraph flattens) is exactly the number of tokens that emit or extend a
unit (are not open punctuation), are not the paragraph's last token, and
are not immediately followed by punctuation of either binding direction —
the claimed if-and-only-if separator rule. -/
theorem C6_pinyin_only_separators (py seg : Str → List Str) (para : Str) :
    (pyUnits py [] [] (cut_mixed seg para)).countP (fun u => u.2) =
      claimCount (cut_mixed seg para) ∧
    pinyin_only_para py seg para =
      (unitsFlatten (pyUnits py [] [] (cut_mixed seg para))).flatten := by
  constructor
  · simpa using pyUnits_count py (cut_mixed seg para) [] []
      (by intro u hu _; simp at hu)
  · rw [pinyin_only_para]
    have h := pyLoop_eq_unitsFlatten py (cut_mixed seg para) [] []
      (by intro u hu _; simp at hu)
    rw [show unitsFlatten [] = [] from rfl] at h
    rw [h]

-- ---------------------------------------------------------------------
-- text_formatter.py: vocabulary
-- ---------------------------------------------------------------------

/-- `str(entry["level"])`, the defaultdict key (text_formatter.py lines
344–348); `str` of a pandas NaN is `"nan"`. -/
def levelKey (e : HskEntry) : Str :=
  match e.level with
  | some l => (toString l).data
  | none => "nan".data

/-- `vocabulary_hanzi[k].add(w)`: create the per-level set on first touch,
never insert a duplicate. -/
def groupAdd (g : List (Str × List Str)) (k w : Str) : List (Str × List Str) :=
  match g with
  | [] => [(k, [w])]
  | (k', ws) :: rest =>
    if k' = k then (k', if w ∈ ws then ws else ws ++ [w]) :: rest
    else (k', ws) :: groupAdd rest k w

/-- Look up a level's set of collected Hanzi. -/
def groupGet (g : List (Str × List Str)) (k : Str) : List Str :=
  (List.lookup k g).getD []

/-- Per-character fallback of the collection loop (text_formatter.py lines
346–348). -/
def vocabCharFold (m : HskMap) (g : List (Str × List Str)) (token : Str) :
    List (Str × List Str) :=
  token.foldl (fun g2 ch =>
    match List.lookup [ch] m with
    | some e => groupAdd g2 (levelKey e) [ch]
    | none => g2) g

/-- Per-token step of the collection loop (text_formatter.py lines 340–348):
whole-word match preferred, per-character fallback. -/
def vocabStep (m : HskMap) (g : List (Str × List Str)) (token : Str) :
    List (Str × List Str) :=
  if is_hanzi_word token = false then g
  else
    match List.lookup token m with
    | some e => groupAdd g (levelKey e) token
    | none => vocabCharFold m g token

/-- The `vocabulary_hanzi` mapping after the whole text is scanned. -/
def vocab_groups (seg : Str → List Str) (m : HskMap) (text : Str) :
    List (Str × List Str) :=
  (cut_mixed seg text).foldl (vocabStep m) []

/-- Python `<=` on strings: lexicographic by code point. -/
def strLe : Str → Str → Bool
  | [], _ => true
  | _ :: _, [] => false
  | c :: cs, d :: ds => if c = d then strLe cs ds else decide (c.toNat < d.toNat)

/-- Insertion into a `strLe`-sorted list. -/
def insertSortedStr (x : Str) : List Str → List Str
  | [] => [x]
  | y :: ys => if strLe x y then x :: y :: ys else y :: insertSortedStr x ys

/-- Python `sorted` on strings (insertion sort). -/
def sortStr (l : List Str) : List Str := l.foldr insertSortedStr []

/-- Title of a level's subsection (text_formatter.py lines 358–363): the
`level_display` of an arbitrary member if non-empty, else `f"HSK {level}"`.
A member is always present in the index by construction; the impossible
`KeyError` branch is modelled as the falsy empty string. -/
def levelTitle (m : HskMap) (k : Str) (ws : List Str) : Str :=
  let ld :=
    match ws with
    | [] => ([] : Str)
    | w :: _ => ((List.lookup w m).map HskEntry.level_display).getD []
  if ld.isEmpty then "HSK ".data ++ k else ld

/-- One table row (text_formatter.py lines 391–396); the impossible
`KeyError` branch is modelled as the empty string. -/
def vocabRow (m : HskMap) (hanzi : Str) : Str :=
  match List.lookup hanzi m with
  | some e =>
    hanzi ++ " & ".data ++ e.pinyin ++ " & ".data ++ e.pos ++ " & ".data ++
      e.audio ++ " & ".data ++ e.english ++ "\\\\".data
  | none => []

/-- The LaTeX `longtable` header/footer row of the vocabulary tables. -/
def vocabHeaderRow : Str :=
  ("\\textbf\x7bHanzi\x7d & \\textbf\x7bPinyin\x7d & \\textbf\x7bPOS\x7d" ++
    " & \\textbf\x7bAudio\x7d & \\textbf\x7bEnglish\x7d\\\\").data

/-- The parts emitted for one level (text_formatter.py lines 357–399). -/
def vocabLevelParts (m : HskMap) (k : Str) (ws : List Str) : List Str :=
  ["\\subsection*\x7b".data ++ levelTitle m k ws ++ "\x7d".data,
   ("\\begin\x7blongtable\x7d\x7bcccc p\x7b0.5\\linewidth\x7d\x7d").data,
   "\\hline".data, vocabHeaderRow, "\\hline".data, "\\endfirsthead".data,
   "\\hline".data, vocabHeaderRow, "\\hline".data, "\\endhead".data,
   "\\hline".data,
   ("\\multicolumn\x7b5\x7d\x7br\x7d\x7b\\footnotesize Continued on next page\x7d\\\\").data,
   "\\endfoot".data, "\\hline".data, "\\endlastfoot".data] ++
  (sortStr ws).map (vocabRow m) ++
  ["\\end\x7blongtable\x7d".data, []]

/-- Source `vocabulary` (text_formatter.py lines 329–401): empty result on
an empty table or when nothing in the text is recognized; otherwise the
levels' tables, levels sorted ascending, words sorted lexicographically. -/
def vocabulary (seg : Str → List Str) (rows : List HskRow) (text : Str) :
    Except Str Str :=
  if rows.isEmpty then .ok []
  else
    match build_hsk_map rows with
    | .error e => .error e
    | .ok m =>
      let g := vocab_groups seg m text
      if g.isEmpty then .ok []
      else
        .ok (List.intercalate "\n".data
          ((sortStr (g.map Prod.fst)).flatMap
            (fun k => vocabLevelParts m k (groupGet g k))))

-- ---------------------------------------------------------------------
-- C8: vocabulary collection is grouped by level and deduplicated
-- ---------------------------------------------------------------------

lemma groupGet_groupAdd_same (g : List (Str × List Str)) (k w : Str) :
    groupGet (groupAdd g k w) k =
      if w ∈ groupGet g k then groupGet g k else groupGet g k ++ [w] := by
  induction g with
  | nil => simp [groupAdd, groupGet, List.lookup]
  | cons p rest ih =>
    rcases p with ⟨k', ws⟩
    by_cases hk : k' = k
    · subst hk
      simp [groupAdd, groupGet, List.lookup]
    · have hbeq : (k == k') = false := beq_eq_false_iff_ne.mpr (fun hcon => hk hcon.symm)
      simp [groupAdd, hk, groupGet, List.lookup, hbeq] at ih ⊢
      exact ih

lemma groupGet_groupAdd_other (g : List (Str × List Str)) {k k2 : Str} (w : Str)
    (hne : k2 ≠ k) : groupGet (groupAdd g k w) k2 = groupGet g k2 := by
  induction g with
  | nil =>
    have hbeq : (k2 == k) = false := beq_eq_false_iff_ne.mpr hne
    simp [groupAdd, groupGet, List.lookup, hbeq]
  | cons p rest ih =>
    rcases p with ⟨k', ws⟩
    by_cases hk : k' = k
    · subst hk
      have hbeq : (k2 == k') = false := beq_eq_false_iff_ne.mpr hne
      simp [groupAdd, groupGet, List.lookup, hbeq]
    · by_cases hk2 : k2 = k'
      · subst hk2
        simp [groupAdd, hk, groupGet, List.lookup]
      · have hbeq : (k2 == k') = false := beq_eq_false_iff_ne.mpr hk2
        simp [groupAdd, hk, groupGet, List.lookup, hbeq] at ih ⊢
        exact ih

lemma mem_groupAdd_self (g : List (Str × List Str)) (k w : Str) :
    w ∈ groupGet (groupAdd g k w) k := by
  rw [groupGet_groupAdd_same]
  by_cases h : w ∈ groupGet g k
  · rw [if_pos h]
    exact h
  · rw [if_neg h]
    simp

lemma mem_groupAdd_mono {g : List (Str × List Str)} {k2 w : Str} (k w' : Str)
    (h : w ∈ groupGet g k2) : w ∈ groupGet (groupAdd g k w') k2 := by
  by_cases hk : k2 = k
  · subst hk
    rw [groupGet_groupAdd_same]
    by_cases hmem : w' ∈ groupGet g k2
    · rw [if_pos hmem]
      exact h
    · rw [if_neg hmem]
      exact List.mem_append_left _ h
  · rwa [groupGet_groupAdd_other _ _ hk]

lemma nodup_groupAdd {g : List (Str × List Str)} (k w : Str)
    (h : ∀ k2, (groupGet g k2).Nodup) : ∀ k2, (groupGet (groupAdd g k w) k2).Nodup := by
  intro k2
  by_cases hk : k2 = k
  · subst hk
    rw [groupGet_groupAdd_same]
    by_cases hmem : w ∈ groupGet g k2
    · rw [if_pos hmem]
      exact h k2
    · rw [if_neg hmem]
      exact List.Nodup.append (h k2) (by simp) (by simp [List.disjoint_singleton, hmem])
  · rw [groupGet_groupAdd_other _ _ hk]
    exact h k2

lemma mem_vocabCharFold_mono (m : HskMap) (token : Str) :
    ∀ g {k2 w : Str}, w ∈ groupGet g k2 → w ∈ groupGet (vocabCharFold m g token) k2 := by
  induction token with
  | nil => intro g k2 w h; exact h
  | cons c cs ih =>
    intro g k2 w h
    rw [vocabCharFold, List.foldl_cons]
    cases hl : List.lookup [c] m with
    | none => exact ih _ (by simpa [hl] using h)
    | some e =>
      have := mem_groupAdd_mono (g := g) (levelKey e) [c] h
      exact ih _ (by simpa [hl] using this)

lemma nodup_vocabCharFold (m : HskMap) (token : Str) :
    ∀ g, (∀ k2, (groupGet g k2).Nodup) →
      ∀ k2, (groupGet (vocabCharFold m g token) k2).Nodup := by
  induction token with
  | nil => intro g h; exact h
  | cons c cs ih =>
    intro g h
    rw [vocabCharFold, List.foldl_cons]
    cases hl : List.lookup [c] m with
    | none => simpa [hl] using ih _ h
    | some e =>
      have := nodup_groupAdd (g := g) (levelKey e) [c] h
      simpa [hl] using ih _ this

lemma mem_vocabCharFold_adds (m : HskMap) (token : Str) :
    ∀ g {c : Char} {e : HskEntry}, c ∈ token → List.lookup [c] m = some e →
      [c] ∈ groupGet (vocabCharFold m g token) (levelKey e) := by
  induction token with
  | nil => intro g c e hc; cases hc
  | cons d ds ih =>
    intro g c e hc hl
    rw [vocabCharFold, List.foldl_cons]
    rcases List.mem_cons.mp hc with rfl | hc2
    · rw [hl]
      exact mem_vocabCharFold_mono m ds _ (mem_groupAdd_self _ _ _)
    · cases hd : List.lookup [d] m with
      | none => exact ih _ hc2 hl
      | some e2 => exact ih _ hc2 hl

lemma mem_vocabStep_mono (m : HskMap) (token : Str) (g : List (Str × List Str))
    {k2 w : Str} (h : w ∈ groupGet g k2) : w ∈ groupGet (vocabStep m g token) k2 := by
  rw [vocabStep]
  by_cases hh : is_hanzi_word token = false
  · simpa [hh] using h
  · simp only [hh, if_false]
    cases hl : List.lookup token m with
    | some e => exact mem_groupAdd_mono _ _ h
    | none => exact mem_vocabCharFold_mono m token g h

lemma nodup_vocabStep (m : HskMap) (token : Str) (g : List (Str × List Str))
    (h : ∀ k2, (groupGet g k2).Nodup) : ∀ k2, (groupGet (vocabStep m g token) k2).Nodup := by
  rw [vocabStep]
  by_cases hh : is_hanzi_word token = false
  · simpa [hh] using h
  · simp only [hh, if_false]
    cases hl : List.lookup token m with
    | some e => exact nodup_groupAdd _ _ h
    | none => exact nodup_vocabCharFold m token g h

lemma mem_vocabFold_mono (m : HskMap) (toks : List Str) :
    ∀ g {k2 w : Str}, w ∈ groupGet g k2 →
      w ∈ groupGet (toks.foldl (vocabStep m) g) k2 := by
  induction toks with
  | nil => intro g k2 w h; exact h
  | cons t ts ih =>
    intro g k2 w h
    rw [List.foldl_cons]
    exact ih _ (mem_vocabStep_mono m t g h)

lemma nodup_vocabFold (m : HskMap) (toks : List Str) :
    ∀ g, (∀ k2, (groupGet g k2).Nodup) →
      ∀ k2, (groupGet (toks.foldl (vocabStep m) g) k2).Nodup := by
  induction toks with
  | nil => intro g h; exact h
  | cons t ts ih =>
    intro g h
    rw [List.foldl_cons]
    exact ih _ (nodup_vocabStep m t g h)

lemma mem_vocabFold_whole (m : HskMap) (toks : List Str) :
    ∀ g {tok : Str} {e : HskEntry}, tok ∈ toks → is_hanzi_word tok = true →
      List.lookup tok m = some e →
      tok ∈ groupGet (toks.foldl (vocabStep m) g) (levelKey e) := by
  induction toks with
  | nil => intro g tok e htok; cases htok
  | cons t ts ih =>
    intro g tok e htok hhz hl
    rw [List.foldl_cons]
    rcases List.mem_cons.mp htok with rfl | htok2
    · refine mem_vocabFold_mono m ts _ ?_
      rw [vocabStep]
      simp only [hhz, Bool.true_eq_false, if_false, hl]
      exact mem_groupAdd_self _ _ _
    · exact ih _ htok2 hhz hl

lemma mem_vocabFold_char (m : HskMap) (toks : List Str) :
    ∀ g {tok : Str} {c : Char} {e : HskEntry}, tok ∈ toks → is_hanzi_word tok = true →
      List.lookup tok m = none → c ∈ tok → List.lookup [c] m = some e →
      [c] ∈ groupGet (toks.foldl (vocabStep m) g) (levelKey e) := by
  induction toks with
  | nil => intro g tok c e htok; cases htok
  | cons t ts ih =>
    intro g tok c e htok hhz hnone hc hl
    rw [List.foldl_cons]
    rcases List.mem_cons.mp htok with rfl | htok2
    · refine mem_vocabFold_mono m ts _ ?_
      rw [vocabStep]
      simp only [hhz, Bool.true_eq_false, if_false, hnone]
      exact mem_vocabCharFold_adds m tok _ hc hl
    · exact ih _ htok2 hhz hnone hc hl

/-- C8: the Vocabulary Section Builder's collection places every recognized
Hanzi word (whole-word match preferred) or character (fallback when the
word itself is unknown) in its level's group, each group has no duplicates
no matter how often a word recurs in the text, and `vocabulary` returns the
empty result on an empty table and whenever nothing in the text was
recognized. -/
theorem C8_vocabulary_grouping (seg : Str → List Str) (m : HskMap) (text : Str) :
    (∀ k, (groupGet (vocab_groups seg m text) k).Nodup) ∧
    (∀ tok ∈ cut_mixed seg text, is_hanzi_word tok = true →
      ∀ e : HskEntry, List.lookup tok m = some e →
        tok ∈ groupGet (vocab_groups seg m text) (levelKey e)) ∧
    (∀ tok ∈ cut_mixed seg text, is_hanzi_word tok = true →
      List.lookup tok m = none →
      ∀ c ∈ tok, ∀ e : HskEntry, List.lookup [c] m = some e →
        [c] ∈ groupGet (vocab_groups seg m text) (levelKey e)) ∧
    vocabulary seg [] text = .ok [] ∧
    (∀ rows : List HskRow, rows ≠ [] → build_hsk_map rows = .ok m →
      vocab_groups seg m text = [] → vocabulary seg rows text = .ok []) := by
  refine ⟨?_, ?_, ?_, rfl, ?_⟩
  · exact nodup_vocabFold m _ [] (by intro k2; simp [groupGet, List.lookup])
  · intro tok htok hhz e hl
    exact mem_vocabFold_whole m _ [] htok hhz hl
  · intro tok htok hhz hnone c hc e hl
    exact mem_vocabFold_char m _ [] htok hhz hnone hc hl
  · intro rows hne hbuild hg
    rw [vocabulary]
    rw [if_neg (by simpa [List.isEmpty_iff] using hne)]
    rw [hbuild]
    simp [hg]

/-- A well-formed level-1 row for the word 你好. -/
def rowNihao : HskRow :=
  { hanzi := some "你好".data, pinyin_tone := some "nǐ hǎo".data,
    pinyin_num := some "ni3 hao3".data, english := some "hello".data,
    pos := some "greeting".data, level := some 1, tts_url := none }

/-- Witness for C8 at a concrete index and text: 你好 is placed under its
level's group. -/
theorem C8_vocabulary_grouping_witness :
    "你好".data ∈
      groupGet
        (vocab_groups (fun r => [r])
          [("你好".data, mkEntry rowNihao "nǐ hǎo".data "hello".data)] "你好".data)
        (levelKey (mkEntry rowNihao "nǐ hǎo".data "hello".data)) := by
  have hcut : cut_mixed (fun r => [r]) "你好".data = ["你好".data] := by
    simp [cut_mixed, hanziRunChar]
  refine (C8_vocabulary_grouping (fun r => [r])
      [("你好".data, mkEntry rowNihao "nǐ hǎo".data "hello".data)] "你好".data).2.1
    "你好".data (by rw [hcut]; simp) (by decide) _ rfl

-- ---------------------------------------------------------------------
-- config.py: HSK_LEVEL_COLORS; text_formatter.py: render_hanzi
-- ---------------------------------------------------------------------

/-- Source `HSK_LEVEL_COLORS` (config.py lines 74–81): integer keys 1–6. -/
def HSK_LEVEL_COLORS : List (Int × Str) :=
  [(1, "green!20".data), (2, "cyan!20".data), (3, "blue!20".data),
   (4, "orange!20".data), (5, "red!20".data), (6, "purple!20".data)]

/-- `HSK_LEVEL_COLORS[level]` on the raw dataframe level: a missing (NaN)
level or one outside 1–6 has no key (`KeyError`). -/
def lookupColor (lvl : Option Int) : Option Str :=
  match lvl with
  | some l => List.lookup l HSK_LEVEL_COLORS
  | none => none

/-- Source `highlight` (text_formatter.py lines 181–188). -/
def highlight (word color : Str) : Str :=
  ("\\begingroup\\setlength\x7b\\fboxsep\x7d\x7b0pt\x7d\\colorbox\x7b").data ++
    color ++ "\x7d\x7b".data ++ word ++ "\x7d\\endgroup".data

/-- Source `tooltip` (text_formatter.py lines 191–193). -/
def tooltip (visible tip : Str) : Str :=
  "\\pdftooltip\x7b".data ++ visible ++ "\x7d\x7b".data ++ tip ++ "\x7d".data

/-- Character-by-character fallback of `annotate_token` (text_formatter.py
lines 222–233): recognized characters are highlighted and tooltipped (the
color lookup can raise `KeyError`), unrecognized ones are kept bare. -/
def annotateChars (m : HskMap) : List Char → Except Str (List Str)
  | [] => .ok []
  | ch :: rest =>
    match List.lookup [ch] m with
    | some e =>
      match lookupColor e.level with
      | none => .error "KeyError: HSK_LEVEL_COLORS".data
      | some color =>
        match annotateChars m rest with
        | .error err => .error err
        | .ok tail => .ok (tooltip (highlight [ch] color) e.tip :: tail)
    | none =>
      match annotateChars m rest with
      | .error err => .error err
      | .ok tail => .ok ([ch] :: tail)

/-- Source `annotate_token` (text_formatter.py lines 214–233): whole word if
known, else character by character. -/
def annotate_token (m : HskMap) (token : Str) : Except Str Str :=
  match List.lookup token m with
  | some e =>
    match lookupColor e.level with
    | none => .error "KeyError: HSK_LEVEL_COLORS".data
    | some color => .ok (tooltip (highlight token color) e.tip)
  | none =>
    match annotateChars m token with
    | .error err => .error err
    | .ok chars => .ok chars.flatten

/-- Per-token rendering of `render_hanzi` (text_formatter.py lines 239–259):
Hanzi words are annotated and wrapped in `\ruby` (with the tone-colored
romanization in ruby mode, empty otherwise), punctuation is emitted as-is,
anything else is wrapped in an empty `\ruby`. -/
def renderToken (m : HskMap) (py : Str → List Str) (with_ruby : Bool)
    (token : Str) : Except Str Str :=
  if is_hanzi_word token then
    match annotate_token m token with
    | .error err => .error err
    | .ok word =>
      if with_ruby then
        .ok ("\\ruby\x7b".data ++ word ++ "\x7d\x7b".data ++ pyWordOf py token ++
          "\x7d".data)
      else .ok ("\\ruby\x7b".data ++ word ++ "\x7d\x7b\x7d".data)
  else if matchOpen token || matchClose token then .ok token
  else .ok ("\\ruby\x7b".data ++ token ++ "\x7d\x7b\x7d".data)

/-- Token loop of one paragraph of `render_hanzi`. -/
def renderTokens (m : HskMap) (py : Str → List Str) (with_ruby : Bool) :
    List Str → Except Str (List Str)
  | [] => .ok []
  | t :: ts =>
    match renderToken m py with_ruby t with
    | .error err => .error err
    | .ok p =>
      match renderTokens m py with_ruby ts with
      | .error err => .error err
      | .ok rest => .ok (p :: rest)

/-- Paragraph loop of `render_hanzi` (text_formatter.py lines 236–261). -/
def renderParas (m : HskMap) (py : Str → List Str) (with_ruby : Bool)
    (seg : Str → List Str) : List Str → Except Str (List Str)
  | [] => .ok []
  | p :: ps =>
    match renderTokens m py with_ruby (cut_mixed seg p) with
    | .error err => .error err
    | .ok pieces =>
      match renderParas m py with_ruby seg ps with
      | .error err => .error err
      | .ok rest => .ok (pieces.flatten :: rest)

/-- Source `render_hanzi` (text_formatter.py lines 199–263). -/
def render_hanzi (seg py : Str → List Str) (rows : List HskRow)
    (paragraphs : List Str) (with_ruby : Bool) : Except Str Str :=
  match build_hsk_map rows with
  | .error err => .error err
  | .ok m =>
    match renderParas m py with_ruby seg paragraphs with
    | .error err => .error err
    | .ok out => .ok (List.intercalate "\n\n".data out)

-- ---------------------------------------------------------------------
-- C10: the color lookup is total for levels 1..6 and the failure point
-- otherwise
-- ---------------------------------------------------------------------

lemma lookup_pair_mem {β : Type} {m : List (Str × β)} {k : Str} {v : β}
    (h : List.lookup k m = some v) : (k, v) ∈ m := by
  induction m with
  | nil => simp [List.lookup] at h
  | cons p rest ih =>
    rw [List.lookup_cons] at h
    cases hbeq : k == p.1 with
    | true =>
      simp only [hbeq] at h
      rcases Option.some.inj h with rfl
      have : k = p.1 := eq_of_beq hbeq
      subst this
      simp
    | false =>
      simp only [hbeq] at h
      exact List.mem_cons_of_mem _ (ih h)

lemma mem_dictInsert {β : Type} (k : Str) (v : β) :
    ∀ (m : List (Str × β)) (p : Str × β), p ∈ dictInsert m k v → p ∈ m ∨ p = (k, v) := by
  intro m
  induction m with
  | nil =>
    intro p hp
    simp [dictInsert] at hp
    simp [hp]
  | cons q rest ih =>
    intro p hp
    rcases q with ⟨k', v'⟩
    by_cases hk : k' = k
    · subst hk
      simp [dictInsert] at hp
      rcases hp with rfl | hp
      · simp
      · simp [hp]
    · simp [dictInsert, hk] at hp
      rcases hp with rfl | hp
      · simp
      · rcases ih p hp with h | h
        · simp [h]
        · simp [h]

lemma build_fold_levels (P : Option Int → Prop) :
    ∀ (l : List HskRow) (m m' : HskMap), build_fold m l = .ok m' →
      (∀ p ∈ m, P p.2.level) → (∀ r ∈ l, P r.level) → ∀ p ∈ m', P p.2.level := by
  intro l
  induction l with
  | nil =>
    intro m m' hok hm _
    rw [build_fold] at hok
    rcases Except.ok.inj hok with rfl
    exact hm
  | cons row rest ih =>
    intro m m' hok hm hl
    match hh : row.hanzi with
    | none =>
      simp only [build_fold, hh] at hok
      exact ih m m' hok hm (fun r hr => hl r (by simp [hr]))
    | some h =>
      simp only [build_fold, hh] at hok
      by_cases he : h.isEmpty
      · rw [if_pos he] at hok
        exact ih m m' hok hm (fun r hr => hl r (by simp [hr]))
      · rw [if_neg he] at hok
        match hp : row.pinyin_tone with
        | none => rw [hp] at hok; cases hok
        | some praw =>
          rw [hp] at hok
          match heng : row.english with
          | none => rw [heng] at hok; cases hok
          | some eng =>
            rw [heng] at hok
            refine ih _ m' hok ?_ (fun r hr => hl r (by simp [hr]))
            intro p hpmem
            rcases mem_dictInsert _ _ _ p hpmem with hmem | rfl
            · exact hm p hmem
            · exact hl row (by simp)

lemma lookupColor_range {l : Int} (h1 : 1 ≤ l) (h6 : l ≤ 6) :
    (List.lookup l HSK_LEVEL_COLORS).isSome = true := by
  interval_cases l <;> decide

lemma annotateChars_ok (m : HskMap)
    (hm : ∀ p ∈ m, ∃ l : Int, p.2.level = some l ∧ 1 ≤ l ∧ l ≤ 6) :
    ∀ token : List Char, ∃ out, annotateChars m token = .ok out := by
  intro token
  induction token with
  | nil => exact ⟨[], rfl⟩
  | cons ch rest ih =>
    rcases ih with ⟨tail, htail⟩
    cases hl : List.lookup [ch] m with
    | none => exact ⟨[ch] :: tail, by simp only [annotateChars, hl, htail]⟩
    | some e =>
      rcases hm _ (lookup_pair_mem hl) with ⟨lv, hlv, h1, h6⟩
      have hcolor : (lookupColor e.level).isSome = true := by
        rw [hlv]
        exact lookupColor_range h1 h6
      rcases Option.isSome_iff_exists.mp hcolor with ⟨color, hc⟩
      exact ⟨tooltip (highlight [ch] color) e.tip :: tail,
        by simp only [annotateChars, hl, hc, htail]⟩

lemma annotate_token_ok (m : HskMap)
    (hm : ∀ p ∈ m, ∃ l : Int, p.2.level = some l ∧ 1 ≤ l ∧ l ≤ 6)
    (token : Str) : ∃ out, annotate_token m token = .ok out := by
  cases hl : List.lookup token m with
  | none =>
    rcases annotateChars_ok m hm token with ⟨chars, hchars⟩
    exact ⟨chars.flatten, by simp only [annotate_token, hl, hchars]⟩
  | some e =>
    rcases hm _ (lookup_pair_mem hl) with ⟨lv, hlv, h1, h6⟩
    have hcolor : (lookupColor e.level).isSome = true := by
      rw [hlv]
      exact lookupColor_range h1 h6
    rcases Option.isSome_iff_exists.mp hcolor with ⟨color, hc⟩
    exact ⟨tooltip (highlight token color) e.tip,
      by simp only [annotate_token, hl, hc]⟩

lemma renderTokens_ok (m : HskMap) (py : Str → List Str) (with_ruby : Bool)
    (hm : ∀ p ∈ m, ∃ l : Int, p.2.level = some l ∧ 1 ≤ l ∧ l ≤ 6) :
    ∀ toks : List Str, ∃ out, renderTokens m py with_ruby toks = .ok out := by
  intro toks
  induction toks with
  | nil => exact ⟨[], rfl⟩
  | cons t ts ih =>
    rcases ih with ⟨rest, hrest⟩
    have hone : ∃ p, renderToken m py with_ruby t = .ok p := by
      by_cases hhz : is_hanzi_word t = true
      · rcases annotate_token_ok m hm t with ⟨word, hword⟩
        by_cases hr : with_ruby = true
        · exact ⟨"\\ruby\x7b".data ++ word ++ "\x7d\x7b".data ++ pyWordOf py t ++
            "\x7d".data, by simp [renderToken, hhz, hword, hr]⟩
        · exact ⟨"\\ruby\x7b".data ++ word ++ "\x7d\x7b\x7d".data,
            by simp [renderToken, hhz, hword, hr]⟩
      · by_cases hpunct : (matchOpen t || matchClose t) = true
        · exact ⟨t, by simp [renderToken, hhz, hpunct]⟩
        · exact ⟨"\\ruby\x7b".data ++ t ++ "\x7d\x7b\x7d".data,
            by simp [renderToken, hhz, hpunct]⟩
    rcases hone with ⟨p, hp⟩
    exact ⟨p :: rest, by simp only [renderTokens, hp, hrest]⟩

lemma renderParas_ok (m : HskMap) (py seg : Str → List Str) (with_ruby : Bool)
    (hm : ∀ p ∈ m, ∃ l : Int, p.2.level = some l ∧ 1 ≤ l ∧ l ≤ 6) :
    ∀ paras : List Str, ∃ out, renderParas m py with_ruby seg paras = .ok out := by
  intro paras
  induction paras with
  | nil => exact ⟨[], rfl⟩
  | cons p ps ih =>
    rcases ih with ⟨rest, hrest⟩
    rcases renderTokens_ok m py with_ruby hm (cut_mixed seg p) with ⟨pieces, hpieces⟩
    exact ⟨pieces.flatten :: rest, by simp only [renderParas, hpieces, hrest]⟩

/-- A row whose level 7 lies outside the `HSK_LEVEL_COLORS` table. -/
def rowLevel7 : HskRow :=
  { hanzi := some "你".data, pinyin_tone := some "nǐ".data,
    pinyin_num := some "ni3".data, english := some "you".data,
    pos := some "pron".data, level := some 7, tts_url := none }

/-- C10: whenever the vocabulary index builds and every row's level is an
integer in 1–6, the per-word and per-character `HSK_LEVEL_COLORS` lookups
of `render_hanzi` (plain and ruby modes) always succeed, so the renderer
never fails; with a level-7 row whose hanzi occurs in the text, that
lookup is exactly where rendering fails (`KeyError`). -/
theorem C10_level_color_lookup :
    (∀ (seg py : Str → List Str) (rows : List HskRow) (paragraphs : List Str)
        (with_ruby : Bool) (m : HskMap),
      build_hsk_map rows = .ok m →
      (∀ r ∈ rows, ∃ l : Int, r.level = some l ∧ 1 ≤ l ∧ l ≤ 6) →
      (render_hanzi seg py rows paragraphs with_ruby).isOk = true) ∧
    render_hanzi (fun r => [r]) (fun _ => []) [rowLevel7] ["你".data] false =
      .error "KeyError: HSK_LEVEL_COLORS".data := by
  constructor
  · intro seg py rows paragraphs with_ruby m hbuild hlevels
    have hm : ∀ p ∈ m, ∃ l : Int, p.2.level = some l ∧ 1 ≤ l ∧ l ≤ 6 := by
      rw [build_hsk_map] at hbuild
      by_cases hg : rows.isEmpty
      · rw [if_pos hg] at hbuild
        rcases Except.ok.inj hbuild with rfl
        intro p hp
        cases hp
      · rw [if_neg hg] at hbuild
        exact build_fold_levels (fun o => ∃ l : Int, o = some l ∧ 1 ≤ l ∧ l ≤ 6)
          _ [] m hbuild (by intro p hp; cases hp)
          (fun r hr => hlevels r (List.mem_of_mem_filter hr))
    rcases renderParas_ok m py seg with_ruby hm paragraphs with ⟨out, hout⟩
    simp only [render_hanzi, hbuild, hout]
    rfl
  · have hcut : cut_mixed (fun r : Str => [r]) "你".data = ["你".data] := by
      simp [cut_mixed, hanziRunChar]
    have hbuild : build_hsk_map [rowLevel7] =
        .ok [("你".data, mkEntry rowLevel7 "nǐ".data "you".data)] := rfl
    have hann : annotate_token [("你".data, mkEntry rowLevel7 "nǐ".data "you".data)]
        "你".data = .error "KeyError: HSK_LEVEL_COLORS".data := rfl
    simp only [render_hanzi, hbuild, renderParas, hcut, renderTokens, renderToken,
      show is_hanzi_word "你".data = true from by decide, if_true, hann]

/-- Witness for C10's success direction at a concrete level-1 table and
text. -/
theorem C10_level_color_lookup_witness :
    (render_hanzi (fun r => [r]) (fun _ => []) [rowNihao] ["你好".data] true).isOk =
      true :=
  C10_level_color_lookup.1 (fun r => [r]) (fun _ => []) [rowNihao] ["你好".data] true
    [("你好".data, mkEntry rowNihao "nǐ hǎo".data "hello".data)] rfl (by decide)
